import Mathlib

/-!
# Idle Person Detection System — verification of the specification

This file gives a shallow embedding of the core pipeline of the idle person
detection system (detection tracking and idle inference), together with the
frontend ROI submission logic, and proves the specified properties about it.

The repository ships the React frontend (`frontend/src/App.js`), the YAML
configuration, and a test report.  The backend that implements the Track
Registry and the Idle Inference Engine is not part of the supplied sources, so
those two components are modelled from the specification; every definition
doing so carries a doc comment saying exactly which spec text it follows.
The frontend ROI logic (`setRoi` / `clearRoi`) is translated directly from
`App.js`.

Numeric conventions: pixel coordinates and timestamps are integers; all
distance comparisons are done on squared Euclidean distances against squared
thresholds, which is equivalent to comparing the (nonnegative) distances
themselves.
-/

/-! ## Geometry utilities -/

/-- A point in frame pixel coordinates. -/
abbrev Pt := Int × Int

/-- Squared Euclidean distance between two points. -/
def dist2 (a b : Pt) : Int :=
  (a.1 - b.1) ^ 2 + (a.2 - b.2) ^ 2

/-- `p` lies on the closed segment from `a` to `b` (collinear and inside
the bounding box). -/
def onSeg (p a b : Pt) : Bool :=
  decide ((b.1 - a.1) * (p.2 - a.2) = (b.2 - a.2) * (p.1 - a.1))
  && decide (min a.1 b.1 ≤ p.1) && decide (p.1 ≤ max a.1 b.1)
  && decide (min a.2 b.2 ≤ p.2) && decide (p.2 ≤ max a.2 b.2)

/-- The horizontal ray going right from `p` crosses the edge from `a` to
`b` (half-open rule on the vertices, intersection strictly right of `p`). -/
def rayHits (p a b : Pt) : Bool :=
  (decide (a.2 ≤ p.2) != decide (b.2 ≤ p.2))
  && (let dy := b.2 - a.2
      let num := (a.1 - p.1) * dy + (p.2 - a.2) * (b.1 - a.1)
      if 0 < dy then decide (0 < num) else decide (num < 0))

/-- Edges of a polygon given as the ordered list of its vertices. -/
def polyEdges (poly : List Pt) : List (Pt × Pt) :=
  poly.zip (poly.drop 1 ++ poly.take 1)

/-- Ray-casting point-in-polygon test; boundary points count as inside. -/
def inPoly (p : Pt) (poly : List Pt) : Bool :=
  let es := polyEdges poly
  es.any (fun e => onSeg p e.1 e.2)
  || (es.foldl (fun c e => if rayHits p e.1 e.2 then c + 1 else c) 0) % 2 == 1

/-! ## Data model -/

/-- One retained centroid sample of a track: position plus timestamp. -/
structure Sample where
  pos : Pt
  time : Int
deriving DecidableEq

/-- Idle detection parameters (config keys `idle_detection.movement_threshold`
and `idle_detection.idle_alert_threshold`). -/
structure IdleParams where
  movement_threshold : Int
  idle_alert_threshold : Int
deriving DecidableEq

/-- Region of interest: ordered polygon plus enabled flag
(config keys `roi.enabled` / `roi.coordinates`). -/
structure ROI where
  enabled : Bool
  coordinates : List Pt
deriving DecidableEq

/-- Track state of the idle inference state machine. -/
inductive TState where
  | ACTIVE
  | IDLE
deriving DecidableEq

/-- Per-track mutable fields of the idle inference engine: the current
state, `idle_since` (set when the state transitions to IDLE), and
`low_since`, the start of the current uninterrupted low-movement stretch. -/
structure MachineState where
  state : TState
  idle_since : Option Int
  low_since : Option Int
deriving DecidableEq

/-- Every new track starts ACTIVE with no idle bookkeeping. -/
def initState : MachineState :=
  ⟨TState.ACTIVE, none, none⟩

/-! ## Idle Inference Engine

Modelled from the spec: the backend Idle Inference Engine is not among the
supplied sources.  Definitions below follow spec §4.3: a per-track
ACTIVE ⇄ IDLE state machine where IDLE is entered when the centroid
displacement over the sliding time window (oldest vs newest sample, not
cumulative path length) stays below `movement_threshold` continuously for at
least `idle_alert_threshold` seconds with the ROI gate satisfied, and ACTIVE
is re-entered the instant a displacement between consecutive retained samples
exceeds `movement_threshold` or the centroid exits an enabled ROI.
"Below the movement threshold continuously" accordingly requires both the
window displacement to stay below the threshold and every consecutive-sample
displacement not to exceed it. -/

/-- Samples of the history whose timestamp falls in the sliding window
`[t - T, t]` (`T` is the idle alert threshold). -/
def windowAt (T : Int) (hist : List Sample) (t : Int) : List Sample :=
  hist.filter (fun s => decide (t - T ≤ s.time) && decide (s.time ≤ t))

/-- Modelled from the spec: movement displacement is the squared Euclidean
distance between the oldest and the newest centroid inside the sliding time
window — not cumulative path length (spec §4.3). -/
def windowDisp2 (T : Int) (hist : List Sample) (t : Int) : Int :=
  match (windowAt T hist t).head?, (windowAt T hist t).getLast? with
  | some a, some b => dist2 a.pos b.pos
  | _, _ => 0

/-- Squared displacement between the previous retained sample and the new
sample (0 if there is no previous sample). -/
def consecDisp2 (prev : List Sample) (s : Sample) : Int :=
  match prev.getLast? with
  | some a => dist2 a.pos s.pos
  | none => 0

/-- ROI gate: ROI disabled, or every sample of the current window lies within
the ROI polygon (spec §4.3: "centroid lies within the ROI polygon for the
entire window"). -/
def roiOkAt (T : Int) (roi : ROI) (hist : List Sample) (t : Int) : Bool :=
  !roi.enabled || (windowAt T hist t).all (fun s => inPoly s.pos roi.coordinates)

/-- The low-movement condition at the evaluation of new sample `s` with
previously retained history `prev`: window displacement below the movement
threshold, consecutive displacement not above it, and the ROI gate holds. -/
def condB (p : IdleParams) (roi : ROI) (prev : List Sample) (s : Sample) : Bool :=
  decide (windowDisp2 p.idle_alert_threshold (prev ++ [s]) s.time < p.movement_threshold ^ 2)
  && decide (consecDisp2 prev s ≤ p.movement_threshold ^ 2)
  && roiOkAt p.idle_alert_threshold roi (prev ++ [s]) s.time

/-- The IDLE-exit trigger at the evaluation of new sample `s`: a
consecutive-sample displacement exceeding the movement threshold, or the
centroid exiting an enabled ROI (spec §4.3). -/
def exitB (p : IdleParams) (roi : ROI) (prev : List Sample) (s : Sample) : Bool :=
  decide (p.movement_threshold ^ 2 < consecDisp2 prev s)
  || (roi.enabled && !inPoly s.pos roi.coordinates)

/-- One evaluation step of the idle inference engine on the arrival of sample
`s` (history so far `prev`, machine state `ms`). -/
def step (p : IdleParams) (roi : ROI) (prev : List Sample) (s : Sample)
    (ms : MachineState) : MachineState :=
  let c := condB p roi prev s
  let ls : Option Int := if c then some (ms.low_since.getD s.time) else none
  match ms.state with
  | TState.ACTIVE =>
    match ls with
    | some t0 =>
      if p.idle_alert_threshold ≤ s.time - t0 then
        ⟨TState.IDLE, some s.time, ls⟩
      else
        ⟨TState.ACTIVE, ms.idle_since, ls⟩
    | none => ⟨TState.ACTIVE, ms.idle_since, none⟩
  | TState.IDLE =>
    if exitB p roi prev s then ⟨TState.ACTIVE, none, none⟩
    else ⟨TState.IDLE, ms.idle_since, ls⟩

/-- Run the engine over a list of samples, given the history already retained
and the current machine state. -/
def runFrom (p : IdleParams) (roi : ROI) :
    List Sample → List Sample → MachineState → MachineState
  | _, [], ms => ms
  | prev, s :: rest, ms => runFrom p roi (prev ++ [s]) rest (step p roi prev s ms)

/-- Run the engine over a full per-track sample history from the initial
state. -/
def runIdle (p : IdleParams) (roi : ROI) (l : List Sample) : MachineState :=
  runFrom p roi [] l initState

/-- Reported idle duration: `timestamp - idle_since` while IDLE, else 0
(spec §4.3). -/
def idle_duration (ms : MachineState) (t : Int) : Int :=
  match ms.state, ms.idle_since with
  | TState.IDLE, some t0 => t - t0
  | _, _ => 0

/-! ## Track Registry

Modelled from the spec: the backend Track Registry is not among the supplied
sources.  Definitions below follow spec §4.2: nearest-centroid greedy
matching over the pairwise distance matrix, stopping as soon as the globally
smallest remaining distance exceeds `max_distance_threshold`; ties broken
toward the lower existing track identifier; matched tracks reset their
disappearance count and append the new centroid; unmatched tracks age by one
tick and are retired once the count exceeds `max_disappeared_frames`;
unmatched detections become new tracks with fresh identifiers. -/

/-- Tracking parameters (config keys `tracking.max_disappeared_frames` and
`tracking.max_distance_threshold`). -/
structure TrackingParams where
  max_disappeared_frames : Nat
  max_distance_threshold : Int
deriving DecidableEq

/-- A persistent track. -/
structure Track where
  id : Nat
  centroid_history : List Sample
  disappeared_count : Nat
  last_seen_frame_index : Nat
deriving DecidableEq

/-- The registry: live tracks plus the next fresh identifier. -/
structure Registry where
  tracks : List Track
  nextId : Nat
deriving DecidableEq

/-- Last known centroid of a track (its history is never empty: tracks are
created with a seeded history of one point). -/
def lastPos (tr : Track) : Pt :=
  match tr.centroid_history.getLast? with
  | some s => s.pos
  | none => (0, 0)

/-- One candidate pair of the distance matrix: track identifier, detection
index, squared distance. -/
structure Cand where
  tid : Nat
  j : Nat
  d2 : Int
deriving DecidableEq

/-- Detection `j` out of a detection centroid list. -/
def getDet (dets : List Pt) (j : Nat) : Pt :=
  dets.getD j (0, 0)

/-- The full pairwise candidate list between existing tracks and the current
frame's detections. -/
def buildCands (tracks : List Track) (dets : List Pt) : List Cand :=
  (tracks.map (fun tr =>
    (List.range dets.length).map (fun j => ⟨tr.id, j, dist2 (lastPos tr) (getDet dets j)⟩))).flatten

/-- Candidate `a` is strictly preferred to `b`: smaller distance, ties broken
by lower track identifier, then by lower detection index. -/
def betterCand (a b : Cand) : Bool :=
  decide (a.d2 < b.d2)
  || (decide (a.d2 = b.d2)
      && (decide (a.tid < b.tid) || (decide (a.tid = b.tid) && decide (a.j < b.j))))

/-- The globally best remaining candidate. -/
def pickMin : List Cand → Option Cand
  | [] => none
  | c :: cs =>
    match pickMin cs with
    | none => some c
    | some d => if betterCand d c then some d else some c

/-- Greedy matching: repeatedly bind the globally smallest remaining
distance, stopping as soon as it exceeds `max_distance_threshold`; a bound
pair removes its track and its detection from further consideration. -/
def greedyMatch (maxD : Int) : Nat → List Cand → List (Nat × Nat)
  | 0, _ => []
  | fuel + 1, cs =>
    match pickMin cs with
    | none => []
    | some c =>
      if decide (c.d2 ≤ maxD ^ 2) then
        (c.tid, c.j) ::
          greedyMatch maxD fuel (cs.filter (fun x => !(x.tid == c.tid) && !(x.j == c.j)))
      else []

/-- The (track id, detection index) pairs bound on this frame. -/
def matchPairs (tp : TrackingParams) (reg : Registry) (dets : List Pt) :
    List (Nat × Nat) :=
  let cs := buildCands reg.tracks dets
  greedyMatch tp.max_distance_threshold cs.length cs

/-- The detection index bound to track `tid`, if any. -/
def findMatch (ms : List (Nat × Nat)) (tid : Nat) : Option Nat :=
  (ms.find? (fun pr => pr.1 == tid)).map (fun pr => pr.2)

/-- Age an unmatched track by one disappearance tick, retiring it once the
count exceeds `max_disappeared_frames` (spec §4.2 step 4). -/
def ageOne (tp : TrackingParams) (tr : Track) : Option Track :=
  if tp.max_disappeared_frames < tr.disappeared_count + 1 then none
  else some { tr with disappeared_count := tr.disappeared_count + 1 }

/-- Registry update for one frame (spec §4.2): match, refresh matched tracks,
age or retire unmatched tracks, create new tracks for unmatched detections. -/
def Registry.update (tp : TrackingParams) (reg : Registry) (dets : List Pt)
    (frame : Nat) (t : Int) : Registry :=
  let ms := matchPairs tp reg dets
  let kept := reg.tracks.filterMap (fun tr =>
    match findMatch ms tr.id with
    | some j => some { tr with
        centroid_history := tr.centroid_history ++ [⟨getDet dets j, t⟩],
        disappeared_count := 0,
        last_seen_frame_index := frame }
    | none => ageOne tp tr)
  let unmatched := (List.range dets.length).filter (fun j => !(ms.any (fun pr => pr.2 == j)))
  let news := unmatched.enum.map (fun kj =>
    ({ id := reg.nextId + kj.1,
       centroid_history := [⟨getDet dets kj.2, t⟩],
       disappeared_count := 0,
       last_seen_frame_index := frame } : Track))
  { tracks := kept ++ news, nextId := reg.nextId + unmatched.length }

/-- `n` successive registry updates with an empty detection list. -/
def agedN (tp : TrackingParams) (frame : Nat) (t : Int) : Nat → Registry → Registry
  | 0, reg => reg
  | n + 1, reg => agedN tp frame t n (Registry.update tp reg [] frame t)

/-! ## Frontend ROI submission (translated from `frontend/src/App.js`) -/

/-- An ROI configuration / request body as posted to `/api/roi/set`. -/
structure RoiConfig where
  enabled : Bool
  coordinates : List Pt
deriving DecidableEq

/-- The frontend state relevant to ROI handling: `roiMode`, the points
clicked so far, and the currently displayed ROI. -/
structure AppRoiState where
  roiMode : Bool
  roiPoints : List Pt
  currentRoi : RoiConfig
deriving DecidableEq

/-- `setRoi` from `App.js`: refuses to post fewer than 3 points; otherwise
posts `{coordinates: roiPoints, enabled: true}` and, only if the request
succeeds, updates the displayed ROI, leaves ROI mode and clears the clicked
points.  Returns the new state and the posted request (if any). -/
def setRoi (st : AppRoiState) (success : Bool) : AppRoiState × Option RoiConfig :=
  if st.roiPoints.length < 3 then (st, none)
  else if success then
    ({ st with currentRoi := ⟨true, st.roiPoints⟩, roiMode := false, roiPoints := [] },
     some ⟨true, st.roiPoints⟩)
  else (st, some ⟨true, st.roiPoints⟩)

/-- `clearRoi` from `App.js`: posts `{coordinates: [], enabled: false}` and,
only if the request succeeds, clears the displayed ROI and the clicked
points. -/
def clearRoi (st : AppRoiState) (success : Bool) : AppRoiState × Option RoiConfig :=
  if success then
    ({ st with currentRoi := ⟨false, []⟩, roiPoints := [] }, some ⟨false, []⟩)
  else (st, some ⟨false, []⟩)

/-- ROI validation error taxonomy (spec §7). -/
inductive RoiError where
  | InvalidROI
deriving DecidableEq

/-- Modelled from the spec: the backend ROI validation is not among the
supplied sources.  Spec §7: `InvalidROI` is raised for fewer than 3 points
while enabled; §6: an empty point list is only valid when disabled. -/
def validateRoi (req : RoiConfig) : Except RoiError RoiConfig :=
  if req.enabled && decide (req.coordinates.length < 3) then
    Except.error RoiError.InvalidROI
  else Except.ok req

/-- Modelled from the spec: applying an ROI submission to the stored ROI —
on rejection the previously configured ROI is retained (spec §7). -/
def applyRoi (prev : RoiConfig) (req : RoiConfig) : RoiConfig :=
  match validateRoi req with
  | Except.ok c => c
  | Except.error _ => prev

/-! ## Concrete fixtures used in scenario claims and witnesses -/

/-- Oscillating centroid: alternates between `(0,0)` and `(6,8)`
(10 pixels apart) once per second. -/
def posOsc (t : Nat) : Pt :=
  if t % 2 == 0 then (0, 0) else (6, 8)

/-- 32 samples (times 0‥31) of a track oscillating within a 10px radius. -/
def oscSamples : List Sample :=
  (List.range 32).map (fun t => ⟨posOsc t, Int.ofNat t⟩)

/-- Timestamp of the newest sample of a history (0 for an empty history). -/
def lastTime (l : List Sample) : Int :=
  match l.getLast? with
  | some a => a.time
  | none => 0

/-- Timestamp of the oldest sample of a history (0 for an empty history). -/
def firstTime (l : List Sample) : Int :=
  match l.head? with
  | some a => a.time
  | none => 0

/-- Timestamps of a sample list are in nondecreasing order (executable
rendition of the `Chain'` hypothesis used for monotone histories). -/
def timesMono : List Sample → Bool
  | a :: b :: l => decide (a.time ≤ b.time) && timesMono (b :: l)
  | _ => true

/-- The history of the counterexample trace for C1: perfectly static at the
origin for 31 seconds (entering IDLE at t = 30), then drifting 19px per
second — each consecutive displacement stays below the movement threshold of
20px, so the machine never exits IDLE, while the displacement across the
30-second window grows far beyond the threshold. -/
def dwellDriftSamples : List Sample :=
  ((List.range 31).map (fun t => ⟨(0, 0), Int.ofNat t⟩))
  ++ [⟨(19, 0), 31⟩, ⟨(38, 0), 32⟩]

/-- Decidable rendition of the specification's IDLE condition at the last
evaluation of history `l`: some evaluation, lying at least
`idle_alert_threshold` seconds before the newest sample, starts a stretch of
evaluations running to the present at every one of which the track is inside
the ROI (or the ROI is disabled) and its movement stays below the movement
threshold. -/
def specIdleNow (p : IdleParams) (roi : ROI) (l : List Sample) : Bool :=
  (List.range l.length).any (fun k =>
    decide ((l.getD k ⟨(0, 0), 0⟩).time + p.idle_alert_threshold ≤ lastTime l)
    && ((List.range (l.length - k)).all (fun i =>
      condB p roi (l.take (k + i)) (l.getD (k + i) ⟨(0, 0), 0⟩))))

/-! ## Helper lemmas on the Track Registry -/

theorem buildCands_nil (tracks : List Track) : buildCands tracks [] = [] := by
  simp [buildCands]

theorem matchPairs_nil (tp : TrackingParams) (reg : Registry) :
    matchPairs tp reg [] = [] := by
  simp [matchPairs, buildCands_nil, greedyMatch]

theorem update_nil (tp : TrackingParams) (reg : Registry) (frame : Nat) (t : Int) :
    Registry.update tp reg [] frame t = ⟨reg.tracks.filterMap (ageOne tp), reg.nextId⟩ := by
  simp [Registry.update, matchPairs_nil, findMatch]

theorem pickMin_mem {cs : List Cand} {c : Cand} (h : pickMin cs = some c) : c ∈ cs := by
  induction cs generalizing c with
  | nil => simp [pickMin] at h
  | cons a rest ih =>
    simp only [pickMin] at h
    cases hrec : pickMin rest with
    | none => rw [hrec] at h; simp at h; simp [h]
    | some d =>
      rw [hrec] at h
      by_cases hb : betterCand d a
      · simp [hb] at h
        exact List.mem_cons_of_mem _ (ih (h ▸ hrec))
      · simp [hb] at h
        simp [h]

theorem greedyMatch_mem {maxD : Int} :
    ∀ {fuel : Nat} {cs : List Cand} {pr : Nat × Nat}, pr ∈ greedyMatch maxD fuel cs →
      ∃ c ∈ cs, c.tid = pr.1 ∧ c.j = pr.2 ∧ c.d2 ≤ maxD ^ 2 := by
  intro fuel
  induction fuel with
  | zero => intro cs pr h; simp [greedyMatch] at h
  | succ n ih =>
    intro cs pr h
    simp only [greedyMatch] at h
    cases hp : pickMin cs with
    | none => rw [hp] at h; simp at h
    | some c =>
      rw [hp] at h
      by_cases hd : c.d2 ≤ maxD ^ 2
      · simp [hd] at h
        rcases h with h | h
        · exact ⟨c, pickMin_mem hp, by simp [h], by simp [h], hd⟩
        · rcases ih h with ⟨c', hc', hrest⟩
          exact ⟨c', List.mem_of_mem_filter hc', hrest⟩
      · simp [hd] at h

theorem buildCands_mem {tracks : List Track} {dets : List Pt} {c : Cand}
    (h : c ∈ buildCands tracks dets) :
    ∃ tr ∈ tracks, c.tid = tr.id ∧ c.j < dets.length ∧
      c.d2 = dist2 (lastPos tr) (getDet dets c.j) := by
  simp only [buildCands, List.mem_flatten, List.mem_map] at h
  rcases h with ⟨l, ⟨tr, htr, rfl⟩, hc⟩
  rcases List.mem_map.mp hc with ⟨j, hj, rfl⟩
  exact ⟨tr, htr, rfl, List.mem_range.mp hj, rfl⟩

/-! ## Claim C2 — empty detection list -/

/-- Claim C2: for every registry state and every frame whose detection
sequence is empty, the registry update creates no new tracks (the fresh-id
counter is unchanged and every surviving track stems from an existing one)
and every existing track ages by exactly one disappearance tick. -/
theorem claim_C2 (tp : TrackingParams) (reg : Registry) (frame : Nat) (t : Int) :
    (Registry.update tp reg [] frame t).nextId = reg.nextId ∧
    (Registry.update tp reg [] frame t).tracks = reg.tracks.filterMap (ageOne tp) ∧
    (∀ tr' ∈ (Registry.update tp reg [] frame t).tracks,
      ∃ tr ∈ reg.tracks, tr'.id = tr.id ∧ tr'.disappeared_count = tr.disappeared_count + 1) := by
  rw [update_nil]
  refine ⟨rfl, rfl, ?_⟩
  intro tr' h
  rcases List.mem_filterMap.mp h with ⟨tr, htr, hage⟩
  unfold ageOne at hage
  by_cases hd : tp.max_disappeared_frames < tr.disappeared_count + 1
  · simp [hd] at hage
  · simp [hd] at hage
    exact ⟨tr, htr, by simp [← hage]⟩

/-- Witness for C2 at a concrete one-track registry. -/
theorem claim_C2_witness :
    (Registry.update ⟨30, 100⟩ ⟨[⟨0, [⟨(0, 0), 0⟩], 0, 0⟩], 1⟩ [] 1 1).nextId = 1 ∧
    (Registry.update ⟨30, 100⟩ ⟨[⟨0, [⟨(0, 0), 0⟩], 0, 0⟩], 1⟩ [] 1 1).tracks =
      ([⟨0, [⟨(0, 0), 0⟩], 0, 0⟩] : List Track).filterMap (ageOne ⟨30, 100⟩) ∧
    (∀ tr' ∈ (Registry.update ⟨30, 100⟩ ⟨[⟨0, [⟨(0, 0), 0⟩], 0, 0⟩], 1⟩ [] 1 1).tracks,
      ∃ tr ∈ ([⟨0, [⟨(0, 0), 0⟩], 0, 0⟩] : List Track),
        tr'.id = tr.id ∧ tr'.disappeared_count = tr.disappeared_count + 1) :=
  claim_C2 ⟨30, 100⟩ ⟨[⟨0, [⟨(0, 0), 0⟩], 0, 0⟩], 1⟩ 1 1

/-! ## Claim C3 — distance threshold bounds every binding -/

/-- Claim C3: a (track, detection) pair whose centroid distance exceeds
`max_distance_threshold` is never bound (every bound pair's squared distance
is at most the squared threshold); and in the concrete scenario of two
existing tracks with both detections at 150px from their nearest track under
`max_distance_threshold = 100`, nothing is matched: both old tracks age by
one tick and the two detections become the new tracks 2 and 3. -/
theorem claim_C3 :
    (∀ (tp : TrackingParams) (reg : Registry) (dets : List Pt) (pr : Nat × Nat),
      pr ∈ matchPairs tp reg dets →
        ∃ tr ∈ reg.tracks, tr.id = pr.1 ∧ pr.2 < dets.length ∧
          dist2 (lastPos tr) (getDet dets pr.2) ≤ tp.max_distance_threshold ^ 2) ∧
    Registry.update ⟨30, 100⟩ ⟨[⟨0, [⟨(0, 0), 0⟩], 0, 0⟩, ⟨1, [⟨(1000, 0), 0⟩], 0, 0⟩], 2⟩
        [(150, 0), (1150, 0)] 1 1 =
      ⟨[⟨0, [⟨(0, 0), 0⟩], 1, 0⟩, ⟨1, [⟨(1000, 0), 0⟩], 1, 0⟩,
        ⟨2, [⟨(150, 0), 1⟩], 0, 1⟩, ⟨3, [⟨(1150, 0), 1⟩], 0, 1⟩], 4⟩ := by
  constructor
  · intro tp reg dets pr h
    rcases greedyMatch_mem h with ⟨c, hc, htid, hj, hd⟩
    rcases buildCands_mem hc with ⟨tr, htr, hcid, hjlt, hcd⟩
    refine ⟨tr, htr, hcid.symm.trans htid, hj ▸ hjlt, ?_⟩
    rw [← hj, ← hcd]
    exact hd
  · decide

/-- Witness for the universally quantified part of C3, at a registry whose
single track is 5px away from the single detection. -/
theorem claim_C3_witness :
    (0, 0) ∈ matchPairs ⟨30, 100⟩ ⟨[⟨0, [⟨(0, 0), 0⟩], 0, 0⟩], 1⟩ [(3, 4)] ∧
    ∃ tr ∈ ([⟨0, [⟨(0, 0), 0⟩], 0, 0⟩] : List Track), tr.id = 0 ∧ 0 < 1 ∧
      dist2 (lastPos tr) (getDet [(3, 4)] 0) ≤ (100 : Int) ^ 2 :=
  ⟨by decide, claim_C3.1 ⟨30, 100⟩ ⟨[⟨0, [⟨(0, 0), 0⟩], 0, 0⟩], 1⟩ [(3, 4)] (0, 0) (by decide)⟩

/-! ## Claim C4 — retirement happens exactly when the count exceeds the bound -/

theorem agedN_nil (tp : TrackingParams) (frame : Nat) (t : Int) (n : Nat) (k : Nat) :
    agedN tp frame t n ⟨[], k⟩ = ⟨[], k⟩ := by
  induction n with
  | zero => rfl
  | succ m ih => rw [agedN, update_nil]; exact ih

theorem agedN_single (tp : TrackingParams) (frame : Nat) (t : Int) :
    ∀ (n : Nat) (tr : Track) (k : Nat),
      tr.disappeared_count ≤ tp.max_disappeared_frames →
      agedN tp frame t n ⟨[tr], k⟩ =
        if tr.disappeared_count + n ≤ tp.max_disappeared_frames then
          ⟨[{ tr with disappeared_count := tr.disappeared_count + n }], k⟩
        else ⟨[], k⟩ := by
  intro n
  induction n with
  | zero =>
    intro tr k hc
    simp [agedN, Nat.add_zero, hc]
  | succ m ih =>
    intro tr k hc
    rw [agedN, update_nil]
    by_cases h1 : tp.max_disappeared_frames < tr.disappeared_count + 1
    · have he : ([tr].filterMap (ageOne tp)) = [] := by
        simp [List.filterMap_cons, ageOne, h1]
      rw [he, agedN_nil, if_neg (by omega)]
    · have he : ([tr].filterMap (ageOne tp)) =
          [{ tr with disappeared_count := tr.disappeared_count + 1 }] := by
        simp [List.filterMap_cons, ageOne, h1]
      rw [he, ih { tr with disappeared_count := tr.disappeared_count + 1 } k (by simp; omega)]
      have harith : tr.disappeared_count + 1 + m = tr.disappeared_count + (m + 1) := by omega
      simp [harith]

/-- Claim C4: starting from a just-matched track (disappearance count 0), `n`
consecutive frames without a matching detection leave the track in the
registry with count `n` while `n ≤ max_disappeared_frames`, and remove it as
soon as `n` exceeds that bound; with `max_disappeared_frames = 30` the track
is present through frame 30 and absent on frame 31. -/
theorem claim_C4 (tp : TrackingParams) (frame : Nat) (t : Int) (tr : Track) (k : Nat)
    (h0 : tr.disappeared_count = 0) (n : Nat) :
    (agedN tp frame t n ⟨[tr], k⟩).tracks =
      if n ≤ tp.max_disappeared_frames then [{ tr with disappeared_count := n }] else [] := by
  rw [agedN_single tp frame t n tr k (by omega)]
  rw [h0]
  by_cases h : n ≤ tp.max_disappeared_frames
  · simp [h]
  · simp [h]

/-- Witness for C4: with `max_disappeared_frames = 30`, a fresh track
unmatched for 30 frames is still present (with count 30) and unmatched for 31
frames is gone. -/
theorem claim_C4_witness :
    (agedN ⟨30, 100⟩ 1 1 30 ⟨[⟨0, [⟨(0, 0), 0⟩], 0, 0⟩], 1⟩).tracks =
      [⟨0, [⟨(0, 0), 0⟩], 30, 0⟩] ∧
    (agedN ⟨30, 100⟩ 1 1 31 ⟨[⟨0, [⟨(0, 0), 0⟩], 0, 0⟩], 1⟩).tracks = [] := by
  constructor
  · rw [claim_C4 ⟨30, 100⟩ 1 1 ⟨0, [⟨(0, 0), 0⟩], 0, 0⟩ 1 rfl 30]
    decide
  · rw [claim_C4 ⟨30, 100⟩ 1 1 ⟨0, [⟨(0, 0), 0⟩], 0, 0⟩ 1 rfl 31]
    decide

/-! ## Claim C6 — window displacement, not path length -/

/-- Claim C6: with `movement_threshold = 20` and `idle_alert_threshold = 30`,
a track oscillating within a 10px radius for 31 seconds is IDLE with
`idle_duration = 1` when evaluated 31 seconds after the window start, because
the movement displacement is the distance between the oldest and the newest
centroid of the window — even though the centroid travels 10px every single
second (so a cumulative path-length test would be far above the
threshold). -/
theorem claim_C6 :
    (runIdle ⟨20, 30⟩ ⟨false, []⟩ oscSamples).state = TState.IDLE ∧
    idle_duration (runIdle ⟨20, 30⟩ ⟨false, []⟩ oscSamples) 31 = 1 ∧
    windowDisp2 30 oscSamples 31 = 0 ∧
    ((List.range 31).all (fun j => dist2 (posOsc j) (posOsc (j + 1)) == 100)) = true := by
  refine ⟨by decide, by decide, by decide, by decide⟩

/-! ## Claim C9 — invalid ROI submissions are rejected, previous ROI retained -/

/-- Claim C9: an ROI submission with fewer than 3 points while enabled is
rejected as `InvalidROI` and the previously configured ROI is retained; an
empty point list is accepted exactly when the disabled flag is set; and the
frontend's `setRoi` does not even post a request for fewer than 3 clicked
points, leaving its state unchanged. -/
theorem claim_C9 :
    (∀ (prev req : RoiConfig), req.enabled = true → req.coordinates.length < 3 →
      validateRoi req = Except.error RoiError.InvalidROI ∧ applyRoi prev req = prev) ∧
    (∀ req : RoiConfig, req.coordinates = [] →
      ((validateRoi req).isOk = true ↔ req.enabled = false)) ∧
    (∀ (st : AppRoiState) (b : Bool), st.roiPoints.length < 3 → setRoi st b = (st, none)) := by
  refine ⟨?_, ?_, ?_⟩
  · intro prev req he hlen
    have hv : validateRoi req = Except.error RoiError.InvalidROI := by
      simp [validateRoi, he, hlen]
    exact ⟨hv, by simp [applyRoi, hv]⟩
  · intro req hco
    cases he : req.enabled with
    | false => simp [validateRoi, he, Except.isOk, Except.toBool]
    | true => simp [validateRoi, he, hco, Except.isOk, Except.toBool]
  · intro st b hlen
    simp [setRoi, hlen]

/-- Witness for C9 at a two-point enabled submission against a stored square
ROI, an empty disabled submission, and a frontend state with two clicked
points. -/
theorem claim_C9_witness :
    (validateRoi ⟨true, [(0, 0), (1, 1)]⟩ = Except.error RoiError.InvalidROI ∧
      applyRoi ⟨true, [(0, 0), (100, 0), (100, 100), (0, 100)]⟩ ⟨true, [(0, 0), (1, 1)]⟩ =
        ⟨true, [(0, 0), (100, 0), (100, 100), (0, 100)]⟩) ∧
    ((validateRoi ⟨true, []⟩).isOk = true ↔ (true : Bool) = false) ∧
    setRoi ⟨true, [(0, 0), (1, 1)], ⟨false, []⟩⟩ true = (⟨true, [(0, 0), (1, 1)], ⟨false, []⟩⟩, none) :=
  ⟨claim_C9.1 ⟨true, [(0, 0), (100, 0), (100, 100), (0, 100)]⟩ ⟨true, [(0, 0), (1, 1)]⟩ rfl
      (by decide),
   claim_C9.2.1 ⟨true, []⟩ rfl,
   claim_C9.2.2 ⟨true, [(0, 0), (1, 1)], ⟨false, []⟩⟩ true (by decide)⟩

/-! ## Claim C10 — every posted ROI request is well-formed -/

/-- Claim C10: every request the frontend posts to `/api/roi/set` is either
enabled with at least 3 points (`setRoi`) or disabled with an empty point
list (`clearRoi`); these two functions are the only posters of that
endpoint in `App.js`; and a failed submission leaves the displayed current
ROI unchanged. -/
theorem claim_C10 :
    (∀ (st : AppRoiState) (b : Bool) (req : RoiConfig), (setRoi st b).2 = some req →
      req.enabled = true ∧ 3 ≤ req.coordinates.length) ∧
    (∀ (st : AppRoiState) (b : Bool) (req : RoiConfig), (clearRoi st b).2 = some req →
      req.enabled = false ∧ req.coordinates = []) ∧
    (∀ st : AppRoiState, (setRoi st false).1.currentRoi = st.currentRoi ∧
      (clearRoi st false).1.currentRoi = st.currentRoi) := by
  refine ⟨?_, ?_, ?_⟩
  · intro st b req h
    by_cases hlen : st.roiPoints.length < 3
    · simp [setRoi, hlen] at h
    · cases b with
      | true =>
        simp [setRoi, hlen] at h
        exact ⟨by rw [← h], by rw [← h]; exact Nat.le_of_not_lt hlen⟩
      | false =>
        simp [setRoi, hlen] at h
        exact ⟨by rw [← h], by rw [← h]; exact Nat.le_of_not_lt hlen⟩
  · intro st b req h
    cases b with
    | true => simp [clearRoi] at h; exact ⟨by rw [← h], by rw [← h]⟩
    | false => simp [clearRoi] at h; exact ⟨by rw [← h], by rw [← h]⟩
  · intro st
    by_cases hlen : st.roiPoints.length < 3
    · simp [setRoi, clearRoi, hlen]
    · simp [setRoi, clearRoi, hlen]

/-- Witness for C10 at a frontend state with a 3-point square drawn. -/
theorem claim_C10_witness :
    ((setRoi ⟨true, [(0, 0), (10, 0), (0, 10)], ⟨false, []⟩⟩ true).2 = some ⟨true, [(0, 0), (10, 0), (0, 10)]⟩ →
      (⟨true, [(0, 0), (10, 0), (0, 10)]⟩ : RoiConfig).enabled = true ∧
        3 ≤ (⟨true, [(0, 0), (10, 0), (0, 10)]⟩ : RoiConfig).coordinates.length) ∧
    ((clearRoi ⟨true, [(0, 0), (10, 0), (0, 10)], ⟨false, []⟩⟩ true).2 = some ⟨false, []⟩ →
      (⟨false, []⟩ : RoiConfig).enabled = false ∧ (⟨false, []⟩ : RoiConfig).coordinates = []) ∧
    ((setRoi ⟨true, [(0, 0), (10, 0), (0, 10)], ⟨false, []⟩⟩ false).1.currentRoi = ⟨false, []⟩ ∧
      (clearRoi ⟨true, [(0, 0), (10, 0), (0, 10)], ⟨false, []⟩⟩ false).1.currentRoi = ⟨false, []⟩) :=
  ⟨claim_C10.1 ⟨true, [(0, 0), (10, 0), (0, 10)], ⟨false, []⟩⟩ true ⟨true, [(0, 0), (10, 0), (0, 10)]⟩,
   claim_C10.2.1 ⟨true, [(0, 0), (10, 0), (0, 10)], ⟨false, []⟩⟩ true ⟨false, []⟩,
   claim_C10.2.2 ⟨true, [(0, 0), (10, 0), (0, 10)], ⟨false, []⟩⟩⟩

/-! ## Helper lemmas on the idle inference machine -/

theorem dist2_self (a : Pt) : dist2 a a = 0 := by
  simp [dist2]

theorem windowAt_snoc (T : Int) (l : List Sample) (s : Sample) (hT : 0 ≤ T) :
    windowAt T (l ++ [s]) s.time = windowAt T l s.time ++ [s] := by
  have h1 : s.time - T ≤ s.time := sub_le_self _ hT
  simp [windowAt, List.filter_append, h1, hT]

theorem consecDisp2_snoc (l : List Sample) (s : Sample) : consecDisp2 (l ++ [s]) s = 0 := by
  simp [consecDisp2, List.getLast?_concat, dist2_self]

theorem windowDisp2_twice (T : Int) (prev : List Sample) (s : Sample) (hT : 0 ≤ T) :
    windowDisp2 T ((prev ++ [s]) ++ [s]) s.time = windowDisp2 T (prev ++ [s]) s.time := by
  have h1 : windowAt T ((prev ++ [s]) ++ [s]) s.time = (windowAt T prev s.time ++ [s]) ++ [s] := by
    rw [windowAt_snoc T (prev ++ [s]) s hT, windowAt_snoc T prev s hT]
  have h2 : windowAt T (prev ++ [s]) s.time = windowAt T prev s.time ++ [s] :=
    windowAt_snoc T prev s hT
  unfold windowDisp2
  rw [h1, h2]
  generalize windowAt T prev s.time = w
  cases w with
  | nil => rfl
  | cons a rest =>
    rw [List.getLast?_concat, List.getLast?_concat]
    rfl

theorem roiOkAt_twice (T : Int) (roi : ROI) (prev : List Sample) (s : Sample) (hT : 0 ≤ T) :
    roiOkAt T roi ((prev ++ [s]) ++ [s]) s.time = roiOkAt T roi (prev ++ [s]) s.time := by
  unfold roiOkAt
  rw [windowAt_snoc T (prev ++ [s]) s hT]
  cases roi.enabled with
  | false => simp
  | true =>
    simp only [Bool.not_true, Bool.false_or, List.all_append]
    cases h : (windowAt T (prev ++ [s]) s.time).all (fun x => inPoly x.pos roi.coordinates) with
    | false => simp
    | true =>
      have hs : inPoly s.pos roi.coordinates = true := by
        have hmem : s ∈ windowAt T (prev ++ [s]) s.time := by
          rw [windowAt_snoc T prev s hT]
          exact List.mem_append_right _ (List.mem_singleton.mpr rfl)
        exact List.all_eq_true.mp h s hmem
      simp [hs]

theorem roiOk_no_exit (T : Int) (roi : ROI) (prev : List Sample) (s : Sample) (hT : 0 ≤ T)
    (h : roiOkAt T roi (prev ++ [s]) s.time = true) :
    (roi.enabled && !inPoly s.pos roi.coordinates) = false := by
  cases he : roi.enabled with
  | false => simp
  | true =>
    have hs : inPoly s.pos roi.coordinates = true := by
      rw [roiOkAt, he] at h
      simp only [Bool.not_true, Bool.false_or] at h
      have hmem : s ∈ windowAt T (prev ++ [s]) s.time := by
        rw [windowAt_snoc T prev s hT]
        exact List.mem_append_right _ (List.mem_singleton.mpr rfl)
      exact List.all_eq_true.mp h s hmem
    simp [hs]

theorem condB_components {p : IdleParams} {roi : ROI} {prev : List Sample} {s : Sample}
    (h : condB p roi prev s = true) :
    windowDisp2 p.idle_alert_threshold (prev ++ [s]) s.time < p.movement_threshold ^ 2 ∧
    consecDisp2 prev s ≤ p.movement_threshold ^ 2 ∧
    roiOkAt p.idle_alert_threshold roi (prev ++ [s]) s.time = true := by
  rw [condB, Bool.and_eq_true, Bool.and_eq_true] at h
  exact ⟨of_decide_eq_true h.1.1, of_decide_eq_true h.1.2, h.2⟩

theorem condB_imp_not_exit {p : IdleParams} {roi : ROI} {prev : List Sample} {s : Sample}
    (hT : 0 ≤ p.idle_alert_threshold) (h : condB p roi prev s = true) :
    exitB p roi prev s = false := by
  rcases condB_components h with ⟨_, hcd, hro⟩
  rw [exitB, Bool.or_eq_false_iff]
  exact ⟨decide_eq_false (not_lt.mpr hcd), roiOk_no_exit _ roi prev s hT hro⟩

/-! ## Claim C8 — idempotence of idle evaluation -/

theorem step_twice_keeps (p : IdleParams) (roi : ROI) (prev : List Sample) (s : Sample)
    (ms : MachineState) (hT : 0 < p.idle_alert_threshold) :
    (step p roi (prev ++ [s]) s (step p roi prev s ms)).state = (step p roi prev s ms).state ∧
    (step p roi (prev ++ [s]) s (step p roi prev s ms)).idle_since =
      (step p roi prev s ms).idle_since := by
  have hT0 : (0 : Int) ≤ p.idle_alert_threshold := le_of_lt hT
  have hm : ¬ (p.movement_threshold ^ 2 < 0) := not_lt.mpr (sq_nonneg _)
  have hc0 : consecDisp2 (prev ++ [s]) s = 0 := consecDisp2_snoc prev s
  have hwd : windowDisp2 p.idle_alert_threshold ((prev ++ [s]) ++ [s]) s.time
      = windowDisp2 p.idle_alert_threshold (prev ++ [s]) s.time := windowDisp2_twice _ _ _ hT0
  have hro : roiOkAt p.idle_alert_threshold roi ((prev ++ [s]) ++ [s]) s.time
      = roiOkAt p.idle_alert_threshold roi (prev ++ [s]) s.time := roiOkAt_twice _ _ _ _ hT0
  have hcond2 : condB p roi (prev ++ [s]) s =
      (decide (windowDisp2 p.idle_alert_threshold (prev ++ [s]) s.time < p.movement_threshold ^ 2)
        && roiOkAt p.idle_alert_threshold roi (prev ++ [s]) s.time) := by
    have hwd' := hwd
    have hro' := hro
    rw [List.append_assoc, List.singleton_append] at hwd' hro'
    simp [condB, hc0, hwd', hro', sq_nonneg]
  have hex2 : exitB p roi (prev ++ [s]) s = (roi.enabled && !inPoly s.pos roi.coordinates) := by
    simp [exitB, hc0, hm]
  have hnoentry : ¬ (p.idle_alert_threshold ≤ 0) := not_le.mpr hT
  cases hst : ms.state with
  | ACTIVE =>
    by_cases hc1 : condB p roi prev s = true
    · rcases condB_components hc1 with ⟨hwd1, _, hro1⟩
      have hc2 : condB p roi (prev ++ [s]) s = true := by
        rw [hcond2, hro1, decide_eq_true hwd1]
        rfl
      by_cases hent : p.idle_alert_threshold ≤ s.time - ms.low_since.getD s.time
      · have e1 : step p roi prev s ms = ⟨TState.IDLE, some s.time, some (ms.low_since.getD s.time)⟩ := by
          simp [step, hst, hc1, hent]
        have hexf : exitB p roi (prev ++ [s]) s = false := by
          rw [hex2]
          exact roiOk_no_exit _ roi prev s hT0 hro1
        rw [e1]
        constructor
        · simp [step, hexf]
        · simp [step, hexf]
      · have e1 : step p roi prev s ms = ⟨TState.ACTIVE, ms.idle_since, some (ms.low_since.getD s.time)⟩ := by
          simp [step, hst, hc1, hent]
        rw [e1]
        constructor
        · simp [step, hc2, hent]
        · simp [step, hc2, hent]
    · have e1 : step p roi prev s ms = ⟨TState.ACTIVE, ms.idle_since, none⟩ := by
        simp [step, hst, hc1]
      rw [e1]
      by_cases hc2 : condB p roi (prev ++ [s]) s = true
      · constructor
        · simp [step, hc2, hnoentry]
        · simp [step, hc2, hnoentry]
      · constructor
        · simp [step, hc2]
        · simp [step, hc2]
  | IDLE =>
    by_cases hex1 : exitB p roi prev s = true
    · have e1 : step p roi prev s ms = ⟨TState.ACTIVE, none, none⟩ := by
        simp [step, hst, hex1]
      rw [e1]
      by_cases hc2 : condB p roi (prev ++ [s]) s = true
      · constructor
        · simp [step, hc2, hnoentry]
        · simp [step, hc2, hnoentry]
      · constructor
        · simp [step, hc2]
        · simp [step, hc2]
    · have hexf1 : exitB p roi prev s = false := Bool.eq_false_iff.mpr hex1
      have hroipart : (roi.enabled && !inPoly s.pos roi.coordinates) = false := by
        rw [exitB, Bool.or_eq_false_iff] at hexf1
        exact hexf1.2
      have hexf2 : exitB p roi (prev ++ [s]) s = false := by rw [hex2, hroipart]
      have e1 : step p roi prev s ms = ⟨TState.IDLE, ms.idle_since,
          if condB p roi prev s then some (ms.low_since.getD s.time) else none⟩ := by
        simp [step, hst, hexf1]
      rw [e1]
      constructor
      · simp [step, hexf2]
      · simp [step, hexf2]

/-- Claim C8: idle evaluation is idempotent — re-evaluating the same sample
at the same timestamp with no new movement in between yields the same state
and the same reported idle duration as evaluating once. -/
theorem claim_C8 (p : IdleParams) (roi : ROI) (prev : List Sample) (s : Sample)
    (ms : MachineState) (hT : 0 < p.idle_alert_threshold) (t : Int) :
    (step p roi (prev ++ [s]) s (step p roi prev s ms)).state = (step p roi prev s ms).state ∧
    idle_duration (step p roi (prev ++ [s]) s (step p roi prev s ms)) t =
      idle_duration (step p roi prev s ms) t := by
  rcases step_twice_keeps p roi prev s ms hT with ⟨h1, h2⟩
  exact ⟨h1, by rw [idle_duration, idle_duration, h1, h2]⟩

/-- Witness for C8 on a concrete one-sample history in IDLE state. -/
theorem claim_C8_witness :
    (step ⟨20, 30⟩ ⟨false, []⟩ ([⟨(5, 5), 0⟩] ++ [⟨(5, 5), 40⟩]) ⟨(5, 5), 40⟩
        (step ⟨20, 30⟩ ⟨false, []⟩ [⟨(5, 5), 0⟩] ⟨(5, 5), 40⟩ ⟨TState.IDLE, some 30, some 0⟩)).state =
      (step ⟨20, 30⟩ ⟨false, []⟩ [⟨(5, 5), 0⟩] ⟨(5, 5), 40⟩ ⟨TState.IDLE, some 30, some 0⟩).state ∧
    idle_duration (step ⟨20, 30⟩ ⟨false, []⟩ ([⟨(5, 5), 0⟩] ++ [⟨(5, 5), 40⟩]) ⟨(5, 5), 40⟩
        (step ⟨20, 30⟩ ⟨false, []⟩ [⟨(5, 5), 0⟩] ⟨(5, 5), 40⟩ ⟨TState.IDLE, some 30, some 0⟩)) 40 =
      idle_duration (step ⟨20, 30⟩ ⟨false, []⟩ [⟨(5, 5), 0⟩] ⟨(5, 5), 40⟩ ⟨TState.IDLE, some 30, some 0⟩) 40 :=
  claim_C8 ⟨20, 30⟩ ⟨false, []⟩ [⟨(5, 5), 0⟩] ⟨(5, 5), 40⟩ ⟨TState.IDLE, some 30, some 0⟩ (by decide) 40

/-! ## Static tracks: helper lemmas -/

theorem chain'_of_timesMono :
    ∀ {l : List Sample}, timesMono l = true →
      List.Chain' (fun x y => x.time ≤ y.time) l
  | [], _ => List.chain'_nil
  | [_], _ => List.chain'_singleton _
  | a :: b :: l, h => by
    rw [timesMono, Bool.and_eq_true] at h
    exact List.chain'_cons.mpr ⟨of_decide_eq_true h.1, chain'_of_timesMono h.2⟩

theorem mem_windowAt {T t : Int} {l : List Sample} {x : Sample} (h : x ∈ windowAt T l t) :
    x ∈ l :=
  List.mem_of_mem_filter h

theorem windowDisp2_const {q : Pt} {l : List Sample} (T t : Int) (h : ∀ x ∈ l, x.pos = q) :
    windowDisp2 T l t = 0 := by
  unfold windowDisp2
  cases hh : (windowAt T l t).head? with
  | none => rfl
  | some a =>
    cases hl : (windowAt T l t).getLast? with
    | none => rfl
    | some b =>
      have hha : a ∈ windowAt T l t := List.mem_of_mem_head? (Option.mem_def.mpr hh)
      have hhb : b ∈ windowAt T l t := List.mem_of_mem_getLast? (Option.mem_def.mpr hl)
      have ha : a.pos = q := h a (mem_windowAt hha)
      have hb : b.pos = q := h b (mem_windowAt hhb)
      simp [ha, hb, dist2_self]

theorem consecDisp2_const {q : Pt} {prev : List Sample} {s : Sample}
    (h : ∀ x ∈ prev, x.pos = q) (hs : s.pos = q) : consecDisp2 prev s = 0 := by
  unfold consecDisp2
  cases hg : prev.getLast? with
  | none => rfl
  | some a =>
    have ha : a.pos = q := h a (List.mem_of_mem_getLast? (Option.mem_def.mpr hg))
    simp [ha, hs, dist2_self]

theorem condB_const (p : IdleParams) (roi : ROI) {q : Pt} (prev : List Sample) (s : Sample)
    (hm : 0 < p.movement_threshold)
    (hall : ∀ x ∈ prev ++ [s], x.pos = q)
    (hroi : roi.enabled = true → inPoly q roi.coordinates = true) :
    condB p roi prev s = true := by
  have h1 : windowDisp2 p.idle_alert_threshold (prev ++ [s]) s.time = 0 :=
    windowDisp2_const _ _ hall
  have h2 : consecDisp2 prev s = 0 :=
    consecDisp2_const (fun x hx => hall x (List.mem_append_left _ hx))
      (hall s (List.mem_append_right _ (List.mem_singleton.mpr rfl)))
  have hmm : (0 : Int) < p.movement_threshold ^ 2 := pow_pos hm 2
  have hro : roiOkAt p.idle_alert_threshold roi (prev ++ [s]) s.time = true := by
    unfold roiOkAt
    cases he : roi.enabled with
    | false => rfl
    | true =>
      simp only [Bool.not_true, Bool.false_or]
      apply List.all_eq_true.mpr
      intro x hx
      rw [hall x (mem_windowAt hx)]
      exact hroi he
  simp [condB, h1, h2, hmm, le_of_lt hmm, hro]

/-! ## Claim C5 — IDLE begins exactly at the threshold boundary -/

theorem runFrom_static (p : IdleParams) (roi : ROI) {q : Pt} (t0 : Int)
    (hm : 0 < p.movement_threshold) (hT : 0 < p.idle_alert_threshold)
    (hroi : roi.enabled = true → inPoly q roi.coordinates = true) :
    ∀ (rest prev : List Sample) (ms : MachineState) (a : Sample),
      (∀ x ∈ prev ++ rest, x.pos = q) →
      List.Chain' (fun x y => x.time ≤ y.time) (prev ++ rest) →
      prev.getLast? = some a →
      ms.low_since = some t0 →
      (ms.state = TState.IDLE ↔ p.idle_alert_threshold ≤ a.time - t0) →
      ((runFrom p roi prev rest ms).state = TState.IDLE ↔
        p.idle_alert_threshold ≤ lastTime (prev ++ rest) - t0) := by
  intro rest
  induction rest with
  | nil =>
    intro prev ms a hall hchain hlast hlow hinv
    rw [runFrom, List.append_nil, lastTime, hlast]
    exact hinv
  | cons s rest' ih =>
    intro prev ms a hall hchain hlast hlow hinv
    rw [runFrom]
    have hassoc : prev ++ s :: rest' = (prev ++ [s]) ++ rest' := by
      rw [List.append_assoc, List.singleton_append]
    have hallps : ∀ x ∈ prev ++ [s], x.pos = q := by
      intro x hx
      rcases List.mem_append.mp hx with h | h
      · exact hall x (List.mem_append_left _ h)
      · have hxs : x = s := List.mem_singleton.mp h
        exact hall x (List.mem_append_right _ (by rw [hxs]; exact List.mem_cons_self s rest'))
    have hc : condB p roi prev s = true := condB_const p roi prev s hm hallps hroi
    have hts : a.time ≤ s.time := by
      have h3 := (List.chain'_append.mp hchain).2.2
      exact h3 a (Option.mem_def.mpr hlast) s (Option.mem_def.mpr rfl)
    have hexf : exitB p roi prev s = false := condB_imp_not_exit (le_of_lt hT) hc
    have hls' : (step p roi prev s ms).low_since = some t0 := by
      cases hst : ms.state with
      | ACTIVE =>
        by_cases hent : p.idle_alert_threshold ≤ s.time - t0
        · simp [step, hst, hc, hent, hlow]
        · simp [step, hst, hc, hent, hlow]
      | IDLE => simp [step, hst, hexf, hc, hlow]
    have hinv' : (step p roi prev s ms).state = TState.IDLE ↔
        p.idle_alert_threshold ≤ s.time - t0 := by
      cases hst : ms.state with
      | ACTIVE =>
        have hnA : ¬ p.idle_alert_threshold ≤ a.time - t0 := by
          intro hcon
          have := hinv.mpr hcon
          rw [hst] at this
          exact TState.noConfusion this
        by_cases hent : p.idle_alert_threshold ≤ s.time - t0
        · simp [step, hst, hc, hlow, hent]
        · simp [step, hst, hc, hlow, hent]
      | IDLE =>
        have hA : p.idle_alert_threshold ≤ a.time - t0 := hinv.mp (by rw [hst])
        have hS : p.idle_alert_threshold ≤ s.time - t0 := by omega
        simp [step, hst, hexf, hS]
    have hres := ih (prev ++ [s]) (step p roi prev s ms) s
      (by rw [← hassoc]; exact hall) (by rw [← hassoc]; exact hchain)
      (List.getLast?_concat _) hls' hinv'
    rw [← hassoc] at hres
    exact hres

/-- Claim C5: for a track whose centroid is static (inside the ROI whenever
the ROI is enabled), the state is IDLE at an evaluation exactly when the
static duration — last sample time minus first sample time — has reached
`idle_alert_threshold`, and is ACTIVE at every evaluation strictly before
that boundary. -/
theorem claim_C5 (p : IdleParams) (roi : ROI) {q : Pt} (s0 : Sample) (l : List Sample)
    (hm : 0 < p.movement_threshold) (hT : 0 < p.idle_alert_threshold)
    (hroi : roi.enabled = true → inPoly q roi.coordinates = true)
    (hall : ∀ x ∈ s0 :: l, x.pos = q)
    (hchain : List.Chain' (fun x y => x.time ≤ y.time) (s0 :: l)) :
    ((runIdle p roi (s0 :: l)).state = TState.IDLE ↔
      p.idle_alert_threshold ≤ lastTime (s0 :: l) - s0.time) := by
  have hsingl : ([] : List Sample) ++ s0 :: l = [s0] ++ l := rfl
  have hc : condB p roi [] s0 = true := by
    apply condB_const p roi [] s0 hm _ hroi
    intro x hx
    rw [List.nil_append] at hx
    exact hall x (by rw [List.mem_singleton.mp hx]; exact List.mem_cons_self s0 l)
  have hnoentry : ¬ (p.idle_alert_threshold ≤ s0.time - s0.time) := by
    rw [sub_self]; exact not_le.mpr hT
  have e1 : step p roi [] s0 initState = ⟨TState.ACTIVE, none, some s0.time⟩ := by
    simp [step, initState, hc, hnoentry, hT]
  rw [runIdle, runFrom, List.nil_append, e1]
  have hres := runFrom_static p roi s0.time hm hT hroi l [s0]
    ⟨TState.ACTIVE, none, some s0.time⟩ s0
    (by rw [List.singleton_append]; exact hall)
    (by rw [List.singleton_append]; exact hchain)
    rfl rfl
    (by constructor
        · intro h; exact absurd h (by simp)
        · intro h; exact absurd h hnoentry)
  rw [List.singleton_append] at hres
  exact hres

/-- Witness for C5: a track static at (50,50) inside an enabled 100×100
square ROI, sampled once per second; IDLE after 30 samples spanning 30
seconds, ACTIVE when the history only spans 29 seconds. -/
theorem claim_C5_witness :
    ((runIdle ⟨20, 30⟩ ⟨true, [(0, 0), (100, 0), (100, 100), (0, 100)]⟩
        (⟨(50, 50), 0⟩ :: (List.range 30).map (fun t => ⟨(50, 50), Int.ofNat (t + 1)⟩))).state =
        TState.IDLE ↔
      (30 : Int) ≤ lastTime (⟨(50, 50), 0⟩ :: (List.range 30).map
        (fun t => ⟨(50, 50), Int.ofNat (t + 1)⟩)) - 0) ∧
    ((runIdle ⟨20, 30⟩ ⟨true, [(0, 0), (100, 0), (100, 100), (0, 100)]⟩
        (⟨(50, 50), 0⟩ :: (List.range 29).map (fun t => ⟨(50, 50), Int.ofNat (t + 1)⟩))).state =
        TState.IDLE ↔
      (30 : Int) ≤ lastTime (⟨(50, 50), 0⟩ :: (List.range 29).map
        (fun t => ⟨(50, 50), Int.ofNat (t + 1)⟩)) - 0) :=
  ⟨claim_C5 (q := (50, 50)) ⟨20, 30⟩ ⟨true, [(0, 0), (100, 0), (100, 100), (0, 100)]⟩ ⟨(50, 50), 0⟩
      ((List.range 30).map (fun t => ⟨(50, 50), Int.ofNat (t + 1)⟩))
      (by decide) (by decide) (fun _ => by decide) (by decide)
      (chain'_of_timesMono (by decide)),
   claim_C5 (q := (50, 50)) ⟨20, 30⟩ ⟨true, [(0, 0), (100, 0), (100, 100), (0, 100)]⟩ ⟨(50, 50), 0⟩
      ((List.range 29).map (fun t => ⟨(50, 50), Int.ofNat (t + 1)⟩))
      (by decide) (by decide) (fun _ => by decide) (by decide)
      (chain'_of_timesMono (by decide))⟩

/-! ## Claim C7 — with ROI disabled, idle inference ignores absolute position -/

theorem windowAt_map (T t : Int) (g : Sample → Sample) (hg : ∀ x, (g x).time = x.time)
    (l : List Sample) : windowAt T (l.map g) t = (windowAt T l t).map g := by
  unfold windowAt
  have hp : ((fun s => decide (t - T ≤ s.time) && decide (s.time ≤ t)) ∘ g)
      = (fun s : Sample => decide (t - T ≤ s.time) && decide (s.time ≤ t)) := by
    funext x
    simp [Function.comp, hg]
  rw [List.filter_map, hp]

theorem step_map (p : IdleParams) (roi : ROI) (g : Sample → Sample)
    (hroi : roi.enabled = false)
    (hgt : ∀ x, (g x).time = x.time)
    (prev : List Sample) (s : Sample)
    (hgd : ∀ a ∈ prev ++ [s], ∀ b ∈ prev ++ [s], dist2 (g a).pos (g b).pos = dist2 a.pos b.pos)
    (ms : MachineState) :
    step p roi (prev.map g) (g s) ms = step p roi prev s ms := by
  have hmg : prev.map g ++ [g s] = (prev ++ [s]).map g := by simp
  have hwd : windowDisp2 p.idle_alert_threshold (prev.map g ++ [g s]) (g s).time
      = windowDisp2 p.idle_alert_threshold (prev ++ [s]) s.time := by
    rw [hmg, hgt s]
    unfold windowDisp2
    rw [windowAt_map _ _ g hgt, List.head?_map, List.getLast?_map]
    cases hh : (windowAt p.idle_alert_threshold (prev ++ [s]) s.time).head? with
    | none => rfl
    | some a =>
      cases hl : (windowAt p.idle_alert_threshold (prev ++ [s]) s.time).getLast? with
      | none => rfl
      | some b =>
        have hha : a ∈ prev ++ [s] :=
          mem_windowAt (List.mem_of_mem_head? (Option.mem_def.mpr hh))
        have hhb : b ∈ prev ++ [s] :=
          mem_windowAt (List.mem_of_mem_getLast? (Option.mem_def.mpr hl))
        simpa using hgd a hha b hhb
  have hcd : consecDisp2 (prev.map g) (g s) = consecDisp2 prev s := by
    unfold consecDisp2
    rw [List.getLast?_map]
    cases hg' : prev.getLast? with
    | none => rfl
    | some a =>
      have hha : a ∈ prev ++ [s] :=
        List.mem_append_left _ (List.mem_of_mem_getLast? (Option.mem_def.mpr hg'))
      have hhs : s ∈ prev ++ [s] := List.mem_append_right _ (List.mem_singleton.mpr rfl)
      simpa using hgd a hha s hhs
  have hcnd : condB p roi (prev.map g) (g s) = condB p roi prev s := by
    unfold condB
    rw [hwd, hcd]
    unfold roiOkAt
    rw [hroi]
    rfl
  have hex : exitB p roi (prev.map g) (g s) = exitB p roi prev s := by
    unfold exitB
    rw [hcd, hroi]
    simp
  unfold step
  rw [hcnd, hex, hgt s]

theorem runFrom_map (p : IdleParams) (roi : ROI) (g : Sample → Sample)
    (hroi : roi.enabled = false) (hgt : ∀ x, (g x).time = x.time) :
    ∀ (rest prev : List Sample) (ms : MachineState),
      (∀ a ∈ prev ++ rest, ∀ b ∈ prev ++ rest, dist2 (g a).pos (g b).pos = dist2 a.pos b.pos) →
      runFrom p roi (prev.map g) (rest.map g) ms = runFrom p roi prev rest ms := by
  intro rest
  induction rest with
  | nil => intro prev ms _; rfl
  | cons s rest' ih =>
    intro prev ms hgd
    rw [List.map_cons, runFrom, runFrom]
    have hassoc : prev ++ s :: rest' = (prev ++ [s]) ++ rest' := by
      rw [List.append_assoc, List.singleton_append]
    have hsub : ∀ a ∈ prev ++ [s], ∀ b ∈ prev ++ [s],
        dist2 (g a).pos (g b).pos = dist2 a.pos b.pos := by
      have hmem : ∀ x, x ∈ prev ++ [s] → x ∈ prev ++ s :: rest' := by
        intro x hx
        rcases List.mem_append.mp hx with h | h
        · exact List.mem_append_left _ h
        · rw [List.mem_singleton.mp h]
          exact List.mem_append_right _ (List.mem_cons_self s rest')
      intro a ha b hb
      exact hgd a (hmem a ha) b (hmem b hb)
    have hmg : prev.map g ++ [g s] = (prev ++ [s]).map g := by simp
    rw [step_map p roi g hroi hgt prev s hsub ms, hmg]
    exact ih (prev ++ [s]) (step p roi prev s ms) (by rw [← hassoc]; exact hgd)

/-- Claim C7: when the ROI is disabled, idle inference is independent of
absolute position — running the engine over a history transformed by any
time-preserving, pairwise-displacement-preserving correspondence yields the
same machine state and the same idle duration. -/
theorem claim_C7 (p : IdleParams) (roi : ROI) (g : Sample → Sample) (l : List Sample) (t : Int)
    (hroi : roi.enabled = false)
    (hgt : ∀ x, (g x).time = x.time)
    (hgd : ∀ a ∈ l, ∀ b ∈ l, dist2 (g a).pos (g b).pos = dist2 a.pos b.pos) :
    runIdle p roi (l.map g) = runIdle p roi l ∧
    idle_duration (runIdle p roi (l.map g)) t = idle_duration (runIdle p roi l) t := by
  have h := runFrom_map p roi g hroi hgt l [] initState (by simpa using hgd)
  rw [List.map_nil] at h
  exact ⟨h, by rw [runIdle, runIdle, h]⟩

/-- Witness for C7: a short history translated by (7, −3) with the ROI
disabled. -/
theorem claim_C7_witness :
    runIdle ⟨20, 30⟩ ⟨false, []⟩
        (([⟨(0, 0), 0⟩, ⟨(5, 5), 10⟩, ⟨(0, 0), 20⟩] : List Sample).map
          (fun x => ⟨(x.pos.1 + 7, x.pos.2 - 3), x.time⟩)) =
      runIdle ⟨20, 30⟩ ⟨false, []⟩ [⟨(0, 0), 0⟩, ⟨(5, 5), 10⟩, ⟨(0, 0), 20⟩] ∧
    idle_duration (runIdle ⟨20, 30⟩ ⟨false, []⟩
        (([⟨(0, 0), 0⟩, ⟨(5, 5), 10⟩, ⟨(0, 0), 20⟩] : List Sample).map
          (fun x => ⟨(x.pos.1 + 7, x.pos.2 - 3), x.time⟩))) 20 =
      idle_duration (runIdle ⟨20, 30⟩ ⟨false, []⟩ [⟨(0, 0), 0⟩, ⟨(5, 5), 10⟩, ⟨(0, 0), 20⟩]) 20 :=
  claim_C7 ⟨20, 30⟩ ⟨false, []⟩ (fun x => ⟨(x.pos.1 + 7, x.pos.2 - 3), x.time⟩)
    [⟨(0, 0), 0⟩, ⟨(5, 5), 10⟩, ⟨(0, 0), 20⟩] 20 rfl (fun _ => rfl) (by decide)

/-! ## Claim C1 — the IDLE invariant -/

theorem runFrom_append (p : IdleParams) (roi : ROI) :
    ∀ (a prev b : List Sample) (ms : MachineState),
      runFrom p roi prev (a ++ b) ms = runFrom p roi (prev ++ a) b (runFrom p roi prev a ms) := by
  intro a
  induction a with
  | nil => intro prev b ms; rw [List.nil_append, List.append_nil, runFrom]
  | cons s a' ih =>
    intro prev b ms
    rw [List.cons_append, runFrom, runFrom, ih]
    have hassoc : prev ++ s :: a' = (prev ++ [s]) ++ a' := by
      rw [List.append_assoc, List.singleton_append]
    rw [hassoc]

theorem step_break {p : IdleParams} {roi : ROI} {prev : List Sample} {s : Sample}
    (hcf : condB p roi prev s = false) (ms : MachineState) :
    (step p roi prev s ms).low_since = none := by
  cases hst : ms.state with
  | ACTIVE => simp [step, hst, hcf]
  | IDLE =>
    by_cases hex : exitB p roi prev s = true
    · simp [step, hst, hex]
    · simp [step, hst, hex, hcf]

theorem runFrom_streak (p : IdleParams) (roi : ROI) (hT : 0 < p.idle_alert_threshold) :
    ∀ (rest prev : List Sample) (ms : MachineState),
      rest ≠ [] →
      (∀ j < rest.length, condB p roi (prev ++ rest.take j) (rest.getD j ⟨(0, 0), 0⟩) = true) →
      p.idle_alert_threshold ≤ lastTime rest - ms.low_since.getD (firstTime rest) →
      (runFrom p roi prev rest ms).state = TState.IDLE := by
  intro rest
  induction rest with
  | nil => intro prev ms hne; exact absurd rfl hne
  | cons s rest' ih =>
    intro prev ms _ hstreak hspan
    have hc : condB p roi prev s = true := by
      have h0 := hstreak 0 (Nat.succ_pos _)
      rw [List.take_zero, List.append_nil, List.getD_cons_zero] at h0
      exact h0
    have hexf : exitB p roi prev s = false := condB_imp_not_exit (le_of_lt hT) hc
    cases rest' with
    | nil =>
      rw [runFrom, runFrom]
      have hspan1 : p.idle_alert_threshold ≤ s.time - ms.low_since.getD s.time := by
        have : lastTime [s] = s.time := rfl
        have : firstTime [s] = s.time := rfl
        simpa [lastTime, firstTime] using hspan
      cases hst : ms.state with
      | ACTIVE => simp [step, hst, hc, hspan1]
      | IDLE => simp [step, hst, hexf]
    | cons s2 rest'' =>
      rw [runFrom]
      have hls' : (step p roi prev s ms).low_since = some (ms.low_since.getD s.time) := by
        cases hst : ms.state with
        | ACTIVE =>
          by_cases hent : p.idle_alert_threshold ≤ s.time - ms.low_since.getD s.time
          · simp [step, hst, hc, hent]
          · simp [step, hst, hc, hent]
        | IDLE => simp [step, hst, hexf, hc]
      apply ih (prev ++ [s]) (step p roi prev s ms) (List.cons_ne_nil _ _)
      · intro j hj
        have hsh := hstreak (j + 1) (by simpa using hj)
        rw [List.take_succ_cons, List.getD_cons_succ] at hsh
        have hassoc : prev ++ s :: List.take j (s2 :: rest'') =
            (prev ++ [s]) ++ List.take j (s2 :: rest'') := by
          rw [List.append_assoc, List.singleton_append]
        rw [hassoc] at hsh
        exact hsh
      · rw [hls']
        have hlt : lastTime (s :: s2 :: rest'') = lastTime (s2 :: rest'') := by
          unfold lastTime
          rw [List.getLast?_cons_cons]
        have hft : firstTime (s :: s2 :: rest'') = s.time := rfl
        rw [hlt, hft] at hspan
        simpa using hspan

/-- Counterexample to C1 as stated: on the dwell-then-drift trace the
machine's state is IDLE at the final evaluation even though the track has
not been below the movement threshold continuously for the idle time
threshold (its displacement across the current window is 38px ≥ 20px), so
"IDLE if and only if the condition holds" fails in the only-if direction. -/
theorem claim_C1_cex :
    (runIdle ⟨20, 30⟩ ⟨false, []⟩ dwellDriftSamples).state = TState.IDLE ∧
    specIdleNow ⟨20, 30⟩ ⟨false, []⟩ dwellDriftSamples = false ∧
    (20 : Int) ^ 2 ≤ windowDisp2 30 dwellDriftSamples 32 := by
  refine ⟨by decide, by decide, by decide⟩

/-- Claim C1, amended: the if-and-only-if weakens to sufficiency.  If, since
an evaluation at which the low-movement stretch was broken (or since the
start of the history), the track has been inside the ROI (or ROI disabled)
with its window displacement below the movement threshold and no
consecutive displacement above it at every evaluation, and that stretch
spans at least the idle time threshold, then the state is IDLE.  (IDLE can
additionally persist after the window displacement re-exceeds the threshold,
as long as no exit trigger fires — that is what the counterexample
exhibits.) -/
theorem claim_C1_amended (p : IdleParams) (roi : ROI) (l1 l2 : List Sample)
    (hT : 0 < p.idle_alert_threshold)
    (hne : l2 ≠ [])
    (hbreak : l1 = [] ∨ ∃ l0 s, l1 = l0 ++ [s] ∧ condB p roi l0 s = false)
    (hstreak : ∀ j < l2.length, condB p roi (l1 ++ l2.take j) (l2.getD j ⟨(0, 0), 0⟩) = true)
    (hspan : firstTime l2 + p.idle_alert_threshold ≤ lastTime l2) :
    (runIdle p roi (l1 ++ l2)).state = TState.IDLE := by
  have hlow : (runFrom p roi [] l1 initState).low_since = none := by
    rcases hbreak with rfl | ⟨l0, s, rfl, hcf⟩
    · rfl
    · rw [runFrom_append, List.nil_append, runFrom, runFrom]
      exact step_break hcf _
  rw [runIdle, runFrom_append, List.nil_append]
  apply runFrom_streak p roi hT l2 l1 _ hne hstreak
  rw [hlow]
  simp only [Option.getD_none]
  omega

/-- Witness for the amended C1: a track static at (5,5) for 30 seconds with
the ROI disabled is IDLE at t = 30. -/
theorem claim_C1_witness :
    (runIdle ⟨20, 30⟩ ⟨false, []⟩
      (([] : List Sample) ++ (List.range 31).map (fun t => ⟨(5, 5), Int.ofNat t⟩))).state =
      TState.IDLE :=
  claim_C1_amended ⟨20, 30⟩ ⟨false, []⟩ []
    ((List.range 31).map (fun t => ⟨(5, 5), Int.ofNat t⟩))
    (by decide) (by decide) (Or.inl rfl) (by decide) (by decide)
